import Mathlib

/-!
Verification of the easySTL memory-allocation subsystem.

Shallow embedding of the three C++ components:
* `MallocAllocator` (spec name: RawAllocator) — `malloc` wrapper with a
  pluggable out-of-memory handler and a bounded (3-attempt) retry loop
  (`include/malloc_allocator.h`).
* `MemoryPoolAllocator` (spec name: PoolAllocator) — segregated free lists
  (16 classes, 8-byte spacing, 128-byte ceiling) over a bump-pointer arena
  (`memory_pool_allocator.h`).
* `AllocatorWrapper` (spec name: TypedWrapper) — element-count to byte-size
  translation layer (`include/allocator_wrapper.h`).

Modelling conventions:
* `size_t` arithmetic is `Nat` with explicit `% 2 ^ 64` where the source can
  overflow or underflow (RoundUp's `& ~7`, GetFreelistIndex's `- 1`,
  size products, `mallocoffset_`).
* Pointers are abstract `Nat` addresses, `0` standing for `nullptr`.
* The system heap (`malloc`) is an oracle: a list of responses, one consumed
  per call; `none` models a `malloc` failure, an exhausted list also fails.
* The process-wide static state of the pool (`freelist_`, `freespacestart_`,
  `freespaceend_`, `mallocoffset_`) is an explicit `PoolState` record; each
  free-list node carries a ghost `size`/`origin` annotation recording the
  extent of the underlying block, so that the block-size invariant can be
  stated (the C code stores only the raw address).
* Undefined behaviour (out-of-bounds index into the 16-entry free-list
  array, popping an empty list) yields `none` in the `Option`-valued
  operations.
-/

namespace EasySTL

/-- `kAlign = 8`, the alignment unit of the pool. -/
def kAlign : Nat := 8

/-- `kMaxBytes = 128`, the pool's size ceiling. -/
def kMaxBytes : Nat := 128

/-- `kFreeListNum = kMaxBytes / kAlign = 16` free-list classes. -/
def kFreeListNum : Nat := 16

namespace MemoryPoolAllocator

/-- `RoundUp(bytes) = (bytes + kAlign - 1) & ~(kAlign - 1)` in `size_t`
arithmetic: `~7` as a 64-bit word is `2 ^ 64 - 8`, and the sum `bytes + 7`
wraps modulo `2 ^ 64`. -/
def RoundUp (bytes : Nat) : Nat := ((bytes + 7) % 2 ^ 64) &&& (2 ^ 64 - 8)

/-- `GetFreelistIndex(bytes) = (bytes + kAlign - 1) / kAlign - 1` in `size_t`
arithmetic: the trailing `- 1` underflows to `2 ^ 64 - 1` when
`(bytes + 7) / 8 = 0`, i.e. when `bytes = 0`. -/
def GetFreelistIndex (bytes : Nat) : Nat :=
  (((bytes + 7) % 2 ^ 64) / 8 + (2 ^ 64 - 1)) % 2 ^ 64

end MemoryPoolAllocator

/-- The system heap, abstracted as a stream of `malloc` responses: `some a`
is a successful allocation at address `a`, `none` a failure.  An exhausted
stream also fails. -/
abbrev Oracle : Type := List (Option Nat)

/-- One `malloc` call: consume the next oracle response. -/
def malloc1 (o : Oracle) : Option Nat × Oracle :=
  match o with
  | [] => (none, [])
  | r :: rest => (r, rest)

/-- Result of `MallocAllocator::Allocate`: a pointer, a null return after
exhausted retries, or `std::abort()`. -/
inductive MRes where
  | ok (p : Nat)
  | null
  | aborted
deriving DecidableEq, Repr

namespace MallocAllocator

/-- `MallocAllocator::MallocInOom`: up to `retries` (`max_retries = 3`)
iterations; each iteration aborts if no handler is installed, otherwise
invokes the handler and retries `malloc`.  Returns the result, the
remaining oracle, and the number of handler invocations. -/
def MallocInOom (handler : Bool) (size : Nat) : Nat → Oracle → MRes × Oracle × Nat
  | 0, o => (.null, o, 0)
  | retries + 1, o =>
    if handler then
      match malloc1 o with
      | (some p, o1) => (.ok p, o1, 1)
      | (none, o1) =>
        match MallocInOom handler size retries o1 with
        | (r, o2, n) => (r, o2, n + 1)
    else (.aborted, o, 0)

/-- `MallocAllocator::Allocate`: one direct `malloc`, then the OOM
protocol on failure. -/
def Allocate (handler : Bool) (size : Nat) (o : Oracle) : MRes × Oracle × Nat :=
  match malloc1 o with
  | (some p, o1) => (.ok p, o1, 0)
  | (none, o1) => MallocInOom handler size 3 o1

end MallocAllocator

/-- Ghost provenance of a block: carved from the bump arena (`arena`),
recycled by a `Deallocate` into class `i` (`freed i`), or obtained from the
system heap on the large-object path (`heap`). -/
inductive Origin where
  | arena
  | freed (i : Nat)
  | heap
deriving DecidableEq, Repr

/-- A memory block: its address plus ghost annotations (the byte extent of
the underlying region and its provenance).  The C code stores only the raw
address; `size` and `origin` are proof-level bookkeeping. -/
structure Block where
  addr : Nat
  size : Nat
  origin : Origin
deriving DecidableEq, Repr

/-- The static state of `MemoryPoolAllocator`: the 16 intrusive free lists
(`MemoryPoolList`, modelled as lists of blocks, head = most recently
pushed), the bump arena `[freespacestart_, freespaceend_)`, and the
cumulative allocation counter `mallocoffset_`. -/
structure PoolState where
  freelist : List (List Block)
  freespacestart : Nat
  freespaceend : Nat
  mallocoffset : Nat
deriving DecidableEq, Repr

/-- The initial static state: null arena, zero offset, 16 empty lists. -/
def initState : PoolState :=
  { freelist := List.replicate 16 []
    freespacestart := 0
    freespaceend := 0
    mallocoffset := 0 }

/-- `freelist_[i].Push(b)`: prepend to list `i` (`MemoryPoolList::Push`).
Out-of-bounds `i` is undefined behaviour in the source, hence `none`. -/
def pushAt (σ : PoolState) (i : Nat) (b : Block) : Option PoolState :=
  match σ.freelist[i]? with
  | some l => some { σ with freelist := σ.freelist.set i (b :: l) }
  | none => none

/-- `freelist_[i].Pop()`: remove and return the head of list `i`
(`MemoryPoolList::Pop`; popping an empty list dereferences null in the
source, hence `none`). -/
def popAt (σ : PoolState) (i : Nat) : Option (Block × PoolState) :=
  match σ.freelist[i]? with
  | some (b :: l) => some (b, { σ with freelist := σ.freelist.set i l })
  | _ => none

/-- Result of a pool operation: a block, a null pointer, or an abort
propagated from the OOM protocol. -/
inductive PRes where
  | ok (b : Block)
  | null
  | aborted
deriving DecidableEq, Repr

/-- Result of `ChunkAlloc`: the carved region's base address and the number
of blocks actually carved (the by-reference `chunknums` out-parameter), or
an abort propagated from `MallocAllocator`. -/
inductive CRes where
  | ok (chunk : Nat) (nums : Nat)
  | aborted
deriving DecidableEq, Repr

namespace MemoryPoolAllocator

/-- The freelist scan of `ChunkAlloc`'s failure branch:
`for (i = size; i <= kMaxBytes; i += kAlign)` — pop the first non-empty
class at or above the requested size.  Returns the block size `i` reached,
the popped block, and the updated state.  `steps` is a structural bound on
the iteration count (the loop runs at most 16 times; callers pass 17). -/
def scanFrom (σ : PoolState) : Nat → Nat → Option (Nat × Block × PoolState)
  | _, 0 => none
  | i, steps + 1 =>
    if i ≤ 128 then
      match popAt σ (GetFreelistIndex i) with
      | some (b, σ1) => some (i, b, σ1)
      | none => scanFrom σ (i + 8) steps
    else none

/-- `MemoryPoolAllocator::ChunkAlloc(size, chunknums)`.  The `fuel`
parameter bounds the source's self-recursion (whose depth is at most 2 on
every reachable input); exhausted fuel yields `none`. -/
def ChunkAlloc (handler : Bool) :
    Nat → Nat → Nat → PoolState → Oracle → Option (CRes × PoolState × Oracle)
  | 0, _, _, _, _ => none
  | fuel + 1, size, chunknums, σ, o =>
    let bytesneed := size * chunknums % 2 ^ 64
    let bytesleft := σ.freespaceend - σ.freespacestart
    if bytesneed ≤ bytesleft then
      some (.ok σ.freespacestart chunknums,
        { σ with freespacestart := σ.freespacestart + bytesneed }, o)
    else if size ≤ bytesleft then
      let nums := bytesleft / size
      some (.ok σ.freespacestart nums,
        { σ with freespacestart := σ.freespacestart + nums * size % 2 ^ 64 }, o)
    else
      let bytesget := (bytesneed * 2 + RoundUp (σ.mallocoffset >>> 4)) % 2 ^ 64
      let salvaged :=
        if 8 ≤ bytesleft then
          pushAt σ (GetFreelistIndex bytesleft) ⟨σ.freespacestart, bytesleft, .arena⟩
        else some σ
      salvaged.bind fun σ1 =>
        match malloc1 o with
        | (some a, o1) =>
          ChunkAlloc handler fuel size chunknums
            { σ1 with freespacestart := a, freespaceend := a + bytesget,
                      mallocoffset := (σ1.mallocoffset + bytesget) % 2 ^ 64 } o1
        | (none, o1) =>
          match scanFrom σ1 size 17 with
          | some (i, b, σ2) =>
            ChunkAlloc handler fuel size chunknums
              { σ2 with freespacestart := b.addr, freespaceend := b.addr + i } o1
          | none =>
            match MallocAllocator.Allocate handler bytesget o1 with
            | (.ok a, o2, _) =>
              ChunkAlloc handler fuel size chunknums
                { σ1 with freespacestart := a, freespaceend := a + bytesget,
                          mallocoffset := (σ1.mallocoffset + bytesget) % 2 ^ 64 } o2
            | (.null, o2, _) =>
              ChunkAlloc handler fuel size chunknums
                { σ1 with freespacestart := 0, freespaceend := bytesget,
                          mallocoffset := (σ1.mallocoffset + bytesget) % 2 ^ 64 } o2
            | (.aborted, o2, _) => some (.aborted, σ1, o2)

/-- The threading loop of `ReFill`: push `count` blocks of ghost extent
`size` at `base, base + size, …` onto list `idx`. -/
def pushRange (idx : Nat) (size : Nat) : Nat → Nat → PoolState → Option PoolState
  | _, 0, σ => some σ
  | base, count + 1, σ =>
    (pushAt σ idx ⟨base, size, .arena⟩).bind (pushRange idx size (base + size) count)

/-- `MemoryPoolAllocator::ReFill(size)` (size already rounded): carve up to
20 blocks, hand the first to the caller, thread the rest onto the free list
of `size`'s class. -/
def ReFill (handler : Bool) (size : Nat) (σ : PoolState) (o : Oracle) :
    Option (PRes × PoolState × Oracle) :=
  (ChunkAlloc handler 3 size 20 σ o).bind fun r =>
    match r with
    | (.aborted, σ1, o1) => some (.aborted, σ1, o1)
    | (.ok chunk nums, σ1, o1) =>
      if nums = 1 then some (.ok ⟨chunk, size, .arena⟩, σ1, o1)
      else
        (pushRange (GetFreelistIndex size) size (chunk + size) (nums - 1) σ1).map
          fun σ2 => (.ok ⟨chunk, size, .arena⟩, σ2, o1)

/-- `MemoryPoolAllocator::Allocate(size)`: route oversized requests to
`MallocAllocator`; otherwise pop the class free list, refilling it first
when empty. -/
def Allocate (handler : Bool) (size : Nat) (σ : PoolState) (o : Oracle) :
    Option (PRes × PoolState × Oracle) :=
  if 128 < size then
    match MallocAllocator.Allocate handler size o with
    | (.ok p, o1, _) => some (.ok ⟨p, size, .heap⟩, σ, o1)
    | (.null, o1, _) => some (.null, σ, o1)
    | (.aborted, o1, _) => some (.aborted, σ, o1)
  else
    match σ.freelist[GetFreelistIndex size]? with
    | none => none
    | some [] => ReFill handler (RoundUp size) σ o
    | some (b :: l) =>
      some (.ok b, { σ with freelist := σ.freelist.set (GetFreelistIndex size) l }, o)

/-- `MemoryPoolAllocator::Deallocate(obj, size)`: oversized blocks go to
`free` (no pool state is read or written); small blocks are pushed onto the
class list of `size`.  The pushed node is the object itself; its ghost
extent is the block's, its provenance is re-tagged as freed-into-class. -/
def Deallocate (b : Block) (size : Nat) (σ : PoolState) : Option PoolState :=
  if 128 < size then some σ
  else pushAt σ (GetFreelistIndex size) ⟨b.addr, b.size, .freed (GetFreelistIndex size)⟩

/-- `MemoryPoolAllocator::Reallocate(obj, oldsize, newsize)`: a no-op when
both sizes round to the same class boundary, otherwise
deallocate-then-allocate. -/
def Reallocate (handler : Bool) (b : Block) (oldsize newsize : Nat)
    (σ : PoolState) (o : Oracle) : Option (PRes × PoolState × Oracle) :=
  if RoundUp newsize = RoundUp oldsize then some (.ok b, σ, o)
  else (Deallocate b oldsize σ).bind fun σ1 => Allocate handler newsize σ1 o

end MemoryPoolAllocator

/-- All blocks on free list `i` have the class's exact extent
`8 * (i + 1) = RoundUp` of any size mapping to class `i`, are 8-aligned,
and originate from arena carving or from a `Deallocate` into class `i`. -/
def classOK (i : Nat) (l : List Block) : Prop :=
  ∀ b ∈ l, b.size = 8 * (i + 1) ∧ b.addr % 8 = 0 ∧
    (b.origin = Origin.arena ∨ b.origin = Origin.freed i)

/-- The pool invariant: 16 free-list classes, each holding only exact,
aligned blocks of its class size with pool provenance; the bump arena is
8-aligned, of 8-divisible extent, well-ordered and smaller than the
address space. -/
def Inv (σ : PoolState) : Prop :=
  σ.freelist.length = 16 ∧
  (∀ i < 16, classOK i (σ.freelist.getD i [])) ∧
  σ.freespacestart % 8 = 0 ∧
  (σ.freespaceend - σ.freespacestart) % 8 = 0 ∧
  σ.freespacestart ≤ σ.freespaceend ∧
  σ.freespaceend - σ.freespacestart < 2 ^ 64

instance (i : Nat) (l : List Block) : Decidable (classOK i l) := by
  unfold classOK; exact inferInstance

instance (σ : PoolState) : Decidable (Inv σ) := by
  unfold Inv; exact inferInstance

/-- The heap only ever returns 8-aligned addresses (the C `malloc`
guarantee for fundamental alignment). -/
def AlignedOracle (o : Oracle) : Prop := ∀ x ∈ o, x.getD 0 % 8 = 0

instance (o : Oracle) : Decidable (AlignedOracle o) := by
  unfold AlignedOracle; exact inferInstance

namespace AllocatorWrapper

/-- `AllocatorWrapper<T, Allocator>::Allocate(n)`:
`n == 0 ? nullptr : static_cast<T*>(Allocator::Allocate(n * sizeof(T)))`.
The configured allocator is abstracted as a state transformer
`alloc : bytes → state → pointer × state`; `sizeofT` is `sizeof(T)`; the
null pointer is `0`; the byte count `n * sizeof(T)` is `size_t` arithmetic. -/
def Allocate {St : Type} (alloc : Nat → St → Nat × St) (sizeofT n : Nat)
    (s : St) : Nat × St :=
  if n = 0 then (0, s) else alloc (n * sizeofT % 2 ^ 64) s

/-- `AllocatorWrapper<T, Allocator>::Deallocate(ptr, n)`:
`if (n != 0) { Allocator::Deallocate(ptr, n * sizeof(T)); }`. -/
def Deallocate {St : Type} (dealloc : Nat → Nat → St → St) (sizeofT ptr n : Nat)
    (s : St) : St :=
  if n ≠ 0 then dealloc ptr (n * sizeofT % 2 ^ 64) s else s

end AllocatorWrapper

/-- Modelled from claim C2's wording, for comparison with the code's
`ChunkAlloc`: identical carving, but in the escalation branch the new arena
is requested from `MallocAllocator` (the allocator running the OOM-handler
protocol) first; only if that request returns null does the free-list scan
run; and only if the scan finds no spare block is the new arena size
requested directly (plain `malloc`) before recursing. -/
def ChunkAllocClaimed (handler : Bool) :
    Nat → Nat → Nat → PoolState → Oracle → Option (CRes × PoolState × Oracle)
  | 0, _, _, _, _ => none
  | fuel + 1, size, chunknums, σ, o =>
    let bytesneed := size * chunknums % 2 ^ 64
    let bytesleft := σ.freespaceend - σ.freespacestart
    if bytesneed ≤ bytesleft then
      some (.ok σ.freespacestart chunknums,
        { σ with freespacestart := σ.freespacestart + bytesneed }, o)
    else if size ≤ bytesleft then
      let nums := bytesleft / size
      some (.ok σ.freespacestart nums,
        { σ with freespacestart := σ.freespacestart + nums * size % 2 ^ 64 }, o)
    else
      let bytesget := (bytesneed * 2 +
        MemoryPoolAllocator.RoundUp (σ.mallocoffset >>> 4)) % 2 ^ 64
      let salvaged :=
        if 8 ≤ bytesleft then
          pushAt σ (MemoryPoolAllocator.GetFreelistIndex bytesleft)
            ⟨σ.freespacestart, bytesleft, .arena⟩
        else some σ
      salvaged.bind fun σ1 =>
        match MallocAllocator.Allocate handler bytesget o with
        | (.ok a, o1, _) =>
          ChunkAllocClaimed handler fuel size chunknums
            { σ1 with freespacestart := a, freespaceend := a + bytesget,
                      mallocoffset := (σ1.mallocoffset + bytesget) % 2 ^ 64 } o1
        | (.aborted, o1, _) => some (.aborted, σ1, o1)
        | (.null, o1, _) =>
          match MemoryPoolAllocator.scanFrom σ1 size 17 with
          | some (i, b, σ2) =>
            ChunkAllocClaimed handler fuel size chunknums
              { σ2 with freespacestart := b.addr, freespaceend := b.addr + i } o1
          | none =>
            match malloc1 o1 with
            | (some a, o2) =>
              ChunkAllocClaimed handler fuel size chunknums
                { σ1 with freespacestart := a, freespaceend := a + bytesget,
                          mallocoffset := (σ1.mallocoffset + bytesget) % 2 ^ 64 } o2
            | (none, o2) =>
              ChunkAllocClaimed handler fuel size chunknums
                { σ1 with freespacestart := 0, freespaceend := bytesget,
                          mallocoffset := (σ1.mallocoffset + bytesget) % 2 ^ 64 } o2

namespace MemoryPoolAllocator

/-- Clearing the low three bits of a 64-bit word rounds down to a
multiple of 8. -/
theorem and_mask_eq_eight_mul (x : Nat) (hx : x < 2 ^ 64) :
    x &&& (2 ^ 64 - 8) = 8 * (x / 8) := by
  have hlow : (x &&& (2 ^ 64 - 8)) % 8 = 0 := by
    have h7 : (x &&& (2 ^ 64 - 8)) % 8 = (x &&& (2 ^ 64 - 8)) &&& 7 := by
      have := Nat.and_pow_two_sub_one_eq_mod (x &&& (2 ^ 64 - 8)) 3
      simpa using this.symm
    rw [h7, Nat.and_assoc]
    have hmask7 : (2 ^ 64 - 8 : Nat) &&& 7 = 0 := by decide
    rw [hmask7, Nat.and_zero]
  have hdiv : (x &&& (2 ^ 64 - 8)) / 8 = x / 8 := by
    have h2 : ∀ a b : Nat, (a &&& b) / 8 = a / 8 &&& b / 8 := by
      intro a b
      have s1 : (a &&& b) / 2 = a / 2 &&& b / 2 := Nat.and_div_two
      have s2 : (a &&& b) / 2 / 2 = a / 2 / 2 &&& b / 2 / 2 := by
        rw [s1, Nat.and_div_two]
      have s3 : (a &&& b) / 2 / 2 / 2 = a / 2 / 2 / 2 &&& b / 2 / 2 / 2 := by
        rw [s2, Nat.and_div_two]
      simpa [Nat.div_div_eq_div_mul] using s3
    have hm : (2 ^ 64 - 8) / 8 = 2 ^ 61 - 1 := by norm_num
    rw [h2, hm]
    have hmod := Nat.and_pow_two_sub_one_eq_mod (x / 8) 61
    rw [hmod]
    exact Nat.mod_eq_of_lt (by omega)
  have := Nat.div_add_mod (x &&& (2 ^ 64 - 8)) 8
  omega

/-- `RoundUp` computed arithmetically: it is `8 * ((bytes + 7) mod 2^64 / 8)`. -/
theorem RoundUp_eq (bytes : Nat) :
    RoundUp bytes = 8 * (((bytes + 7) % 2 ^ 64) / 8) := by
  unfold RoundUp
  exact and_mask_eq_eight_mul _ (Nat.mod_lt _ (by norm_num))

/-- For sizes below the ceiling there is no wrap-around:
`RoundUp s = 8 * ((s + 7) / 8)`. -/
theorem RoundUp_small {s : Nat} (hs : s ≤ 128) : RoundUp s = 8 * ((s + 7) / 8) := by
  rw [RoundUp_eq, Nat.mod_eq_of_lt (by omega)]

/-- For positive sizes below the ceiling the free-list index is the
expected `(s + 7) / 8 - 1 < 16`. -/
theorem GetFreelistIndex_small {s : Nat} (h1 : 1 ≤ s) (h2 : s ≤ 128) :
    GetFreelistIndex s = (s + 7) / 8 - 1 := by
  unfold GetFreelistIndex
  rw [Nat.mod_eq_of_lt (show s + 7 < 2 ^ 64 by omega)]
  omega

theorem GetFreelistIndex_small_lt {s : Nat} (h1 : 1 ≤ s) (h2 : s ≤ 128) :
    GetFreelistIndex s < 16 := by
  rw [GetFreelistIndex_small h1 h2]
  omega

end MemoryPoolAllocator

/-- **C3** — OOM protocol of `RawAllocator::Allocate(size)`: the direct
system allocation is attempted first and returned when non-null; on failure
with no handler installed the process terminates; with a handler installed
the handler is invoked and the allocation retried, up to 3 times (shown both
for full exhaustion and for a mid-retry success); exhausting all 3 retries
returns null rather than aborting. -/
theorem rawallocator_oom_protocol :
    (∀ (handler : Bool) (size p : Nat) (rest : Oracle),
      MallocAllocator.Allocate handler size (some p :: rest) = (.ok p, rest, 0)) ∧
    (∀ (size : Nat) (rest : Oracle),
      MallocAllocator.Allocate false size (none :: rest) = (.aborted, rest, 0)) ∧
    (∀ (size : Nat) (rest : Oracle),
      MallocAllocator.Allocate true size (none :: none :: none :: none :: rest) =
        (.null, rest, 3)) ∧
    (∀ (size p : Nat) (rest : Oracle),
      MallocAllocator.Allocate true size (none :: none :: some p :: rest) =
        (.ok p, rest, 2)) := by
  refine ⟨fun handler size p rest => rfl, fun size rest => rfl,
    fun size rest => rfl, fun size p rest => rfl⟩

/-- **C7** — `RoundUp` is idempotent for every `size_t` value, wrap-around
included: `RoundUp (RoundUp s) = RoundUp s`. -/
theorem roundup_idempotent (s : Nat) :
    MemoryPoolAllocator.RoundUp (MemoryPoolAllocator.RoundUp s) =
      MemoryPoolAllocator.RoundUp s := by
  rw [MemoryPoolAllocator.RoundUp_eq s, MemoryPoolAllocator.RoundUp_eq]
  have h1 : ((s + 7) % 2 ^ 64) / 8 < 2 ^ 61 := by
    have : (s + 7) % 2 ^ 64 < 2 ^ 64 := Nat.mod_lt _ (by norm_num)
    omega
  set q := ((s + 7) % 2 ^ 64) / 8 with hq
  have h2 : 8 * q + 7 < 2 ^ 64 := by omega
  rw [Nat.mod_eq_of_lt h2]
  omega

theorem malloc1_aligned {o : Oracle} {r : Option Nat} {o1 : Oracle}
    (ha : AlignedOracle o) (h : malloc1 o = (r, o1)) :
    AlignedOracle o1 ∧ ∀ a, r = some a → a % 8 = 0 := by
  cases o with
  | nil =>
    simp only [malloc1] at h
    cases h
    exact ⟨ha, by intro a h; cases h⟩
  | cons x rest =>
    simp only [malloc1] at h
    injection h with h1 h2
    subst h1; subst h2
    refine ⟨fun y hy => ha y (List.mem_cons_of_mem x hy), ?_⟩
    intro a hx
    have := ha x (List.mem_cons_self x rest)
    rw [hx] at this
    simpa using this

theorem MallocInOom_aligned {handler : Bool} {size : Nat} :
    ∀ (k : Nat) {o o1 : Oracle} {r : MRes} {n : Nat},
      AlignedOracle o → MallocAllocator.MallocInOom handler size k o = (r, o1, n) →
      AlignedOracle o1 ∧ ∀ p, r = .ok p → p % 8 = 0 := by
  intro k
  induction k with
  | zero =>
    intro o o1 r n ha h
    simp only [MallocAllocator.MallocInOom] at h
    cases h
    exact ⟨ha, by intro p h; cases h⟩
  | succ k ih =>
    intro o o1 r n ha h
    simp only [MallocAllocator.MallocInOom] at h
    by_cases hh : handler
    · rw [if_pos hh] at h
      rcases hm : malloc1 o with ⟨mr, mo⟩
      obtain ⟨hmo, hma⟩ := malloc1_aligned ha hm
      rw [hm] at h
      cases mr with
      | some p =>
        simp only at h
        cases h
        exact ⟨hmo, by intro q hq; cases hq; exact hma p rfl⟩
      | none =>
        simp only at h
        rcases hrec : MallocAllocator.MallocInOom handler size k mo with ⟨r2, o2, n2⟩
        rw [hrec] at h
        cases h
        exact ih hmo hrec
    · rw [if_neg hh] at h
      cases h
      exact ⟨ha, by intro p h; cases h⟩

theorem MallocAllocator_Allocate_aligned {handler : Bool} {size : Nat}
    {o o1 : Oracle} {r : MRes} {n : Nat}
    (ha : AlignedOracle o) (h : MallocAllocator.Allocate handler size o = (r, o1, n)) :
    AlignedOracle o1 ∧ ∀ p, r = .ok p → p % 8 = 0 := by
  unfold MallocAllocator.Allocate at h
  rcases hm : malloc1 o with ⟨mr, mo⟩
  obtain ⟨hmo, hma⟩ := malloc1_aligned ha hm
  rw [hm] at h
  cases mr with
  | some p =>
    simp only at h
    cases h
    exact ⟨hmo, by intro q hq; cases hq; exact hma p rfl⟩
  | none =>
    simp only at h
    exact MallocInOom_aligned 3 hmo h

theorem getD_of_getElem? {l : List (List Block)} {i : Nat} {x : List Block}
    (h : l[i]? = some x) : l.getD i [] = x := by
  simp [List.getD, h]

theorem pushAt_inv {σ : PoolState} {i : Nat} {b : Block} {σ1 : PoolState}
    (hσ : Inv σ) (hb : b.size = 8 * (i + 1)) (ha : b.addr % 8 = 0)
    (ho : b.origin = Origin.arena ∨ b.origin = Origin.freed i)
    (h : pushAt σ i b = some σ1) :
    Inv σ1 ∧ σ1.freespacestart = σ.freespacestart ∧
      σ1.freespaceend = σ.freespaceend ∧ σ1.mallocoffset = σ.mallocoffset := by
  unfold pushAt at h
  rcases hl : σ.freelist[i]? with _ | l
  · rw [hl] at h; cases h
  · rw [hl] at h
    injection h with h1
    subst h1
    obtain ⟨hlen, hcls, hrest⟩ := hσ
    have hi : i < 16 := by
      by_contra hc
      rw [List.getElem?_eq_none (by omega)] at hl
      cases hl
    refine ⟨⟨by simpa using hlen, ?_, hrest⟩, rfl, rfl, rfl⟩
    intro j hj
    by_cases hij : i = j
    · subst hij
      rw [getD_of_getElem? (List.getElem?_set_self (by omega))]
      intro c hc
      rcases List.mem_cons.mp hc with hcb | hcl
      · subst hcb; exact ⟨hb, ha, ho⟩
      · exact hcls i hi c (by rw [getD_of_getElem? hl]; exact hcl)
    · have heq : (σ.freelist.set i (b :: l)).getD j [] = σ.freelist.getD j [] := by
        simp [List.getD, List.getElem?_set_ne hij]
      rw [heq]
      exact hcls j hj

theorem popAt_inv {σ : PoolState} {i : Nat} {b : Block} {σ1 : PoolState}
    (hσ : Inv σ) (h : popAt σ i = some (b, σ1)) :
    Inv σ1 ∧ i < 16 ∧ b.size = 8 * (i + 1) ∧ b.addr % 8 = 0 ∧
      (b.origin = Origin.arena ∨ b.origin = Origin.freed i) ∧
      σ1.freespacestart = σ.freespacestart ∧
      σ1.freespaceend = σ.freespaceend ∧ σ1.mallocoffset = σ.mallocoffset := by
  unfold popAt at h
  rcases hl : σ.freelist[i]? with _ | ⟨_ | ⟨c, l⟩⟩ <;> rw [hl] at h
  · cases h
  · cases h
  · injection h with h1
    injection h1 with hb1 hs1
    obtain rfl : b = c := hb1.symm
    subst hs1
    obtain ⟨hlen, hcls, hrest⟩ := hσ
    have hi : i < 16 := by
      by_contra hc
      rw [List.getElem?_eq_none (by omega)] at hl
      cases hl
    have hcb := hcls i hi b (by rw [getD_of_getElem? hl]; exact List.mem_cons_self b l)
    refine ⟨⟨by simpa using hlen, ?_, hrest⟩, hi, hcb.1, hcb.2.1, hcb.2.2, rfl, rfl, rfl⟩
    intro j hj
    by_cases hij : i = j
    · subst hij
      rw [getD_of_getElem? (List.getElem?_set_self (by omega))]
      intro c hc
      exact hcls i hi c (by rw [getD_of_getElem? hl]; exact List.mem_cons_of_mem b hc)
    · have heq : (σ.freelist.set i l).getD j [] = σ.freelist.getD j [] := by
        simp [List.getD, List.getElem?_set_ne hij]
      rw [heq]
      exact hcls j hj

theorem bump_inv {σ : PoolState} {k : Nat}
    (hσ : Inv σ) (hk : k % 8 = 0) (hle : k ≤ σ.freespaceend - σ.freespacestart) :
    Inv { σ with freespacestart := σ.freespacestart + k } := by
  obtain ⟨h1, h2, h3, h4, h5, h6⟩ := hσ
  refine ⟨h1, h2, ?_, ?_, ?_, ?_⟩ <;> dsimp only <;> omega

theorem newArena_inv {σ : PoolState} {a g m : Nat}
    (hσ : Inv σ) (ha : a % 8 = 0) (hg : g % 8 = 0) (hlt : g < 2 ^ 64) :
    Inv ⟨σ.freelist, a, a + g, m⟩ := by
  obtain ⟨h1, h2, h3, h4, h5, h6⟩ := hσ
  refine ⟨h1, h2, ?_, ?_, ?_, ?_⟩ <;> dsimp only <;> omega

theorem scanFrom_inv :
    ∀ (steps : Nat) {i : Nat} {σ : PoolState} {j : Nat} {b : Block} {σ1 : PoolState},
      Inv σ → i % 8 = 0 → 8 ≤ i →
      MemoryPoolAllocator.scanFrom σ i steps = some (j, b, σ1) →
      Inv σ1 ∧ b.size = j ∧ b.addr % 8 = 0 ∧ j % 8 = 0 ∧ 8 ≤ j ∧ j ≤ 128 ∧
        σ1.freespacestart = σ.freespacestart ∧ σ1.freespaceend = σ.freespaceend ∧
        σ1.mallocoffset = σ.mallocoffset := by
  intro steps
  induction steps with
  | zero => intro i σ j b σ1 _ _ _ h; simp [MemoryPoolAllocator.scanFrom] at h
  | succ steps ih =>
    intro i σ j b σ1 hσ hi8 hi h
    rw [MemoryPoolAllocator.scanFrom] at h
    by_cases hle : i ≤ 128
    · rw [if_pos hle] at h
      rcases hp : popAt σ (MemoryPoolAllocator.GetFreelistIndex i) with _ | ⟨c, σc⟩ <;>
        rw [hp] at h
      · exact ih hσ (by omega) (by omega) h
      · injection h with h1
        injection h1 with hj h2
        injection h2 with hb hs
        subst hj
        obtain rfl : b = c := hb.symm
        subst hs
        obtain ⟨hinv, hidx, hsz, haddr, _, hf1, hf2, hf3⟩ := popAt_inv hσ hp
        rw [MemoryPoolAllocator.GetFreelistIndex_small (by omega) hle] at hsz
        exact ⟨hinv, by omega, haddr, hi8, hi, hle, hf1, hf2, hf3⟩
    · rw [if_neg hle] at h
      cases h

theorem pushRange_inv :
    ∀ (count : Nat) {idx size base : Nat} {σ σ1 : PoolState},
      Inv σ → size = 8 * (idx + 1) → base % 8 = 0 →
      MemoryPoolAllocator.pushRange idx size base count σ = some σ1 →
      Inv σ1 ∧ σ1.freespacestart = σ.freespacestart ∧
        σ1.freespaceend = σ.freespaceend ∧ σ1.mallocoffset = σ.mallocoffset := by
  intro count
  induction count with
  | zero =>
    intro idx size base σ σ1 hσ _ _ h
    rw [MemoryPoolAllocator.pushRange] at h
    injection h with h1
    subst h1
    exact ⟨hσ, rfl, rfl, rfl⟩
  | succ count ih =>
    intro idx size base σ σ1 hσ hsz hb h
    rw [MemoryPoolAllocator.pushRange] at h
    rcases hp : pushAt σ idx ⟨base, size, .arena⟩ with _ | σp <;> rw [hp] at h
    · cases h
    · rw [Option.some_bind] at h
      obtain ⟨hinv, hf1, hf2, hf3⟩ := pushAt_inv hσ hsz hb (Or.inl rfl) hp
      obtain ⟨hinv1, hg1, hg2, hg3⟩ := ih hinv hsz (by omega) h
      exact ⟨hinv1, by rw [hg1, hf1], by rw [hg2, hf2], by rw [hg3, hf3]⟩

theorem mod64_mod8 (x : Nat) : x % 2 ^ 64 % 8 = x % 8 :=
  Nat.mod_mod_of_dvd x (by norm_num)

theorem mul_mod8 {size : Nat} (h : size % 8 = 0) (n : Nat) : size * n % 8 = 0 := by
  rw [Nat.mul_mod, h, Nat.zero_mul, Nat.zero_mod]

theorem RoundUp_mod8 (x : Nat) : MemoryPoolAllocator.RoundUp x % 8 = 0 := by
  rw [MemoryPoolAllocator.RoundUp_eq]
  exact Nat.mul_mod_right 8 _

theorem pushAt_succeeds (σ : PoolState) {i : Nat} (b : Block)
    (hlen : σ.freelist.length = 16) (hi : i < 16) :
    pushAt σ i b =
      some { σ with freelist := σ.freelist.set i (b :: σ.freelist.getD i []) } := by
  unfold pushAt
  rw [List.getElem?_eq_getElem (by omega)]
  rw [getD_of_getElem? (List.getElem?_eq_getElem (by omega))]

theorem ChunkAlloc_inv :
    ∀ (fuel : Nat) {handler : Bool} {size n : Nat} {σ : PoolState} {o : Oracle}
      {r : CRes} {σ1 : PoolState} {o1 : Oracle},
      Inv σ → AlignedOracle o → size % 8 = 0 → 8 ≤ size → size ≤ 128 →
      MemoryPoolAllocator.ChunkAlloc handler fuel size n σ o = some (r, σ1, o1) →
      Inv σ1 ∧ AlignedOracle o1 ∧ ∀ c m, r = CRes.ok c m → c % 8 = 0 := by
  intro fuel
  induction fuel with
  | zero =>
    intro handler size n σ o r σ1 o1 _ _ _ _ _ h
    simp [MemoryPoolAllocator.ChunkAlloc] at h
  | succ fuel ih =>
    intro handler size n σ o r σ1 o1 hσ ho hs8 hs hsc h
    have hBN8 : size * n % 2 ^ 64 % 8 = 0 := by rw [mod64_mod8]; exact mul_mod8 hs8 n
    have hlen : σ.freelist.length = 16 := hσ.1
    have harena := hσ.2.2
    simp only [MemoryPoolAllocator.ChunkAlloc] at h
    by_cases hc1 : size * n % 2 ^ 64 ≤ σ.freespaceend - σ.freespacestart
    · rw [if_pos hc1] at h
      injection h with h1
      injection h1 with hr h2
      injection h2 with hst ho1
      subst hst; subst ho1
      refine ⟨bump_inv hσ hBN8 hc1, ho, ?_⟩
      intro c m hc
      rw [← hr] at hc
      injection hc with hc hm
      rw [← hc]
      exact hσ.2.2.1
    · rw [if_neg hc1] at h
      by_cases hc2 : size ≤ σ.freespaceend - σ.freespacestart
      · rw [if_pos hc2] at h
        injection h with h1
        injection h1 with hr h2
        injection h2 with hst ho1
        subst hst; subst ho1
        have hb8 : (σ.freespaceend - σ.freespacestart) / size * size % 2 ^ 64 % 8 = 0 := by
          rw [mod64_mod8, Nat.mul_comm]
          exact mul_mod8 hs8 _
        have hble : (σ.freespaceend - σ.freespacestart) / size * size % 2 ^ 64 ≤
            σ.freespaceend - σ.freespacestart := by
          have h1 := Nat.div_mul_le_self (σ.freespaceend - σ.freespacestart) size
          have h2 := Nat.mod_le ((σ.freespaceend - σ.freespacestart) / size * size) (2 ^ 64)
          omega
        refine ⟨bump_inv hσ hb8 hble, ho, ?_⟩
        intro c m hc
        rw [← hr] at hc
        injection hc with hc hm
        rw [← hc]
        exact hσ.2.2.1
      · rw [if_neg hc2] at h
        -- escalation branch: salvage, then malloc / freelist scan / RawAllocator
        have hsalv : ∃ σs,
            (if 8 ≤ σ.freespaceend - σ.freespacestart then
              pushAt σ (MemoryPoolAllocator.GetFreelistIndex
                  (σ.freespaceend - σ.freespacestart))
                ⟨σ.freespacestart, σ.freespaceend - σ.freespacestart, .arena⟩
             else some σ) = some σs ∧ Inv σs ∧
            σs.freespacestart = σ.freespacestart ∧
            σs.freespaceend = σ.freespaceend ∧
            σs.mallocoffset = σ.mallocoffset := by
          by_cases hsl : 8 ≤ σ.freespaceend - σ.freespacestart
          · rw [if_pos hsl]
            have hbl1 : 1 ≤ σ.freespaceend - σ.freespacestart := by omega
            have hbl2 : σ.freespaceend - σ.freespacestart ≤ 128 := by omega
            have hidx : MemoryPoolAllocator.GetFreelistIndex
                (σ.freespaceend - σ.freespacestart) < 16 :=
              MemoryPoolAllocator.GetFreelistIndex_small_lt hbl1 hbl2
            have hp := pushAt_succeeds σ
              ⟨σ.freespacestart, σ.freespaceend - σ.freespacestart, .arena⟩ hlen hidx
            refine ⟨_, hp, ?_⟩
            have hcls : (σ.freespaceend - σ.freespacestart) =
                8 * (MemoryPoolAllocator.GetFreelistIndex
                  (σ.freespaceend - σ.freespacestart) + 1) := by
              rw [MemoryPoolAllocator.GetFreelistIndex_small hbl1 hbl2]
              omega
            obtain ⟨hi1, hi2, hi3, hi4⟩ :=
              pushAt_inv hσ hcls hσ.2.2.1 (Or.inl rfl) hp
            exact ⟨hi1, hi2, hi3, hi4⟩
          · rw [if_neg hsl]
            exact ⟨σ, rfl, hσ, rfl, rfl, rfl⟩
        obtain ⟨σs, hps, hσs, he1, he2, he3⟩ := hsalv
        rw [hps, Option.some_bind] at h
        have hBG8 : (size * n % 2 ^ 64 * 2 +
            MemoryPoolAllocator.RoundUp (σ.mallocoffset >>> 4)) % 2 ^ 64 % 8 = 0 := by
          rw [mod64_mod8]
          have := RoundUp_mod8 (σ.mallocoffset >>> 4)
          omega
        have hBGlt : (size * n % 2 ^ 64 * 2 +
            MemoryPoolAllocator.RoundUp (σ.mallocoffset >>> 4)) % 2 ^ 64 < 2 ^ 64 :=
          Nat.mod_lt _ (by norm_num)
        rcases hm : malloc1 o with ⟨mr, mo⟩
        rw [hm] at h
        obtain ⟨hmo, hma⟩ := malloc1_aligned ho hm
        cases mr with
        | some a =>
          exact ih (newArena_inv hσs (hma a rfl) hBG8 hBGlt) hmo hs8 hs hsc h
        | none =>
          rcases hscan : MemoryPoolAllocator.scanFrom σs size 17 with _ | ⟨i, b, σ2⟩ <;>
            rw [hscan] at h
          · dsimp only at h
            rcases hmal : MallocAllocator.Allocate handler
                ((size * n % 2 ^ 64 * 2 +
                  MemoryPoolAllocator.RoundUp (σ.mallocoffset >>> 4)) % 2 ^ 64) mo
              with ⟨ar, ao, an⟩
            rw [hmal] at h
            obtain ⟨hao, haa⟩ := MallocAllocator_Allocate_aligned hmo hmal
            cases ar with
            | ok a =>
              exact ih (newArena_inv hσs (haa a rfl) hBG8 hBGlt) hao hs8 hs hsc h
            | null =>
              have hz := newArena_inv (a := 0)
                (m := (σs.mallocoffset + (size * n % 2 ^ 64 * 2 +
                  MemoryPoolAllocator.RoundUp (σ.mallocoffset >>> 4)) % 2 ^ 64) % 2 ^ 64)
                hσs (by norm_num) hBG8 hBGlt
              rw [Nat.zero_add] at hz
              exact ih hz hao hs8 hs hsc h
            | aborted =>
              replace h : some ((CRes.aborted : CRes), σs, ao) = some (r, σ1, o1) := h
              injection h with h1
              injection h1 with hr h2
              injection h2 with hst ho1
              subst hst; subst ho1
              exact ⟨hσs, hao, fun c m hc => by rw [← hr] at hc; cases hc⟩
          · obtain ⟨hinv2, hbsz, hbad, hi8, hi1, hi2, _⟩ := scanFrom_inv 17 hσs hs8 hs hscan
            exact ih (newArena_inv hinv2 hbad hi8 (by omega)) hmo hs8 hs hsc h

theorem ReFill_inv {handler : Bool} {size : Nat} {σ : PoolState} {o : Oracle}
    {r : PRes} {σ1 : PoolState} {o1 : Oracle}
    (hσ : Inv σ) (ho : AlignedOracle o) (hs8 : size % 8 = 0)
    (hs : 8 ≤ size) (hsc : size ≤ 128)
    (h : MemoryPoolAllocator.ReFill handler size σ o = some (r, σ1, o1)) :
    Inv σ1 ∧ ∀ b, r = PRes.ok b →
      b.size = size ∧ b.addr % 8 = 0 ∧ b.origin = Origin.arena := by
  unfold MemoryPoolAllocator.ReFill at h
  rcases hca : MemoryPoolAllocator.ChunkAlloc handler 3 size 20 σ o
    with _ | ⟨cr, σc, oc⟩ <;> rw [hca] at h
  · cases h
  · rw [Option.some_bind] at h
    obtain ⟨hinvc, hoc, hcal⟩ := ChunkAlloc_inv 3 hσ ho hs8 hs hsc hca
    cases cr with
    | aborted =>
      replace h : some ((PRes.aborted : PRes), σc, oc) = some (r, σ1, o1) := h
      injection h with h1
      injection h1 with hr h2
      injection h2 with hst ho1
      subst hst
      exact ⟨hinvc, fun b hb => by rw [← hr] at hb; cases hb⟩
    | ok chunk nums =>
      dsimp only at h
      have hch : chunk % 8 = 0 := hcal chunk nums rfl
      by_cases hn : nums = 1
      · rw [if_pos hn] at h
        injection h with h1
        injection h1 with hr h2
        injection h2 with hst ho1
        subst hst
        refine ⟨hinvc, fun b hb => ?_⟩
        rw [← hr] at hb
        injection hb with hb
        rw [← hb]
        exact ⟨rfl, hch, rfl⟩
      · rw [if_neg hn] at h
        rcases hpr : MemoryPoolAllocator.pushRange
            (MemoryPoolAllocator.GetFreelistIndex size) size (chunk + size) (nums - 1) σc
          with _ | σp <;> rw [hpr] at h
        · cases h
        · have hsz : size = 8 * (MemoryPoolAllocator.GetFreelistIndex size + 1) := by
            rw [MemoryPoolAllocator.GetFreelistIndex_small (by omega) hsc]
            omega
          obtain ⟨hinvp, _, _, _⟩ := pushRange_inv (nums - 1) hinvc hsz (by omega) hpr
          replace h : some (PRes.ok ⟨chunk, size, Origin.arena⟩, σp, oc) =
              some (r, σ1, o1) := h
          injection h with h1
          injection h1 with hr h2
          injection h2 with hst ho1
          subst hst
          refine ⟨hinvp, fun b hb => ?_⟩
          rw [← hr] at hb
          injection hb with hb
          rw [← hb]
          exact ⟨rfl, hch, rfl⟩

theorem Allocate_inv {handler : Bool} {s : Nat} {σ : PoolState} {o : Oracle}
    {r : PRes} {σ1 : PoolState} {o1 : Oracle}
    (hσ : Inv σ) (ho : AlignedOracle o)
    (h : MemoryPoolAllocator.Allocate handler s σ o = some (r, σ1, o1)) :
    Inv σ1 ∧ (s ≤ 128 → ∀ b, r = PRes.ok b →
      b.size = MemoryPoolAllocator.RoundUp s ∧ b.addr % 8 = 0 ∧
      (b.origin = Origin.arena ∨
        b.origin = Origin.freed (MemoryPoolAllocator.GetFreelistIndex s))) := by
  unfold MemoryPoolAllocator.Allocate at h
  by_cases h128 : 128 < s
  · rw [if_pos h128] at h
    rcases hma : MallocAllocator.Allocate handler s o with ⟨mr, mo, mn⟩
    rw [hma] at h
    cases mr <;> dsimp only at h <;>
      (injection h with h1; injection h1 with hr h2; injection h2 with hst ho1;
        subst hst) <;>
      exact ⟨hσ, fun hle => by omega⟩
  · rw [if_neg h128] at h
    rcases hl : σ.freelist[MemoryPoolAllocator.GetFreelistIndex s]?
      with _ | ⟨_ | ⟨c, l⟩⟩ <;> rw [hl] at h <;> dsimp only at h
    · cases h
    · -- empty class: ReFill (RoundUp s)
      have hidx : MemoryPoolAllocator.GetFreelistIndex s < 16 := by
        by_contra hc
        have hlen := hσ.1
        rw [List.getElem?_eq_none (by omega)] at hl
        cases hl
      have hs1 : 1 ≤ s := by
        by_contra hc
        have hz : s = 0 := by omega
        rw [hz] at hidx
        have : MemoryPoolAllocator.GetFreelistIndex 0 = 2 ^ 64 - 1 := by decide
        omega
      have hru : MemoryPoolAllocator.RoundUp s = 8 * ((s + 7) / 8) :=
        MemoryPoolAllocator.RoundUp_small (by omega)
      obtain ⟨hinv, hblk⟩ := ReFill_inv hσ ho
        (by rw [hru]; exact Nat.mul_mod_right 8 _)
        (by omega) (by omega) h
      refine ⟨hinv, fun _ b hb => ?_⟩
      obtain ⟨hb1, hb2, hb3⟩ := hblk b hb
      exact ⟨hb1, hb2, Or.inl hb3⟩
    · -- non-empty class: pop
      have hpop : popAt σ (MemoryPoolAllocator.GetFreelistIndex s) =
          some (c,
            { σ with freelist := σ.freelist.set (MemoryPoolAllocator.GetFreelistIndex s) l }) := by
        unfold popAt
        rw [hl]
      obtain ⟨hinv, hidx, hcsz, hcad, hcor, _, _, _⟩ := popAt_inv hσ hpop
      have hs1 : 1 ≤ s := by
        by_contra hc
        have hz : s = 0 := by omega
        rw [hz] at hidx
        have : MemoryPoolAllocator.GetFreelistIndex 0 = 2 ^ 64 - 1 := by decide
        omega
      injection h with h1
      injection h1 with hr h2
      injection h2 with hst ho1
      subst hst
      refine ⟨hinv, fun hle b hb => ?_⟩
      rw [← hr] at hb
      injection hb with hb
      rw [← hb]
      have hif := MemoryPoolAllocator.GetFreelistIndex_small hs1 (by omega)
      refine ⟨?_, hcad, hcor⟩
      rw [MemoryPoolAllocator.RoundUp_small (by omega), hcsz, hif]
      omega

theorem Deallocate_inv {b : Block} {s : Nat} {σ σ1 : PoolState}
    (hσ : Inv σ) (hbs : b.size = MemoryPoolAllocator.RoundUp s)
    (hba : b.addr % 8 = 0)
    (h : MemoryPoolAllocator.Deallocate b s σ = some σ1) : Inv σ1 := by
  unfold MemoryPoolAllocator.Deallocate at h
  by_cases h128 : 128 < s
  · rw [if_pos h128] at h
    injection h with h1
    subst h1
    exact hσ
  · rw [if_neg h128] at h
    unfold pushAt at h
    rcases hl : σ.freelist[MemoryPoolAllocator.GetFreelistIndex s]? with _ | l <;>
      rw [hl] at h
    · cases h
    · have hidx : MemoryPoolAllocator.GetFreelistIndex s < 16 := by
        by_contra hc
        have hlen := hσ.1
        rw [List.getElem?_eq_none (by omega)] at hl
        cases hl
      have hs1 : 1 ≤ s := by
        by_contra hc
        have hz : s = 0 := by omega
        rw [hz] at hidx
        have : MemoryPoolAllocator.GetFreelistIndex 0 = 2 ^ 64 - 1 := by decide
        omega
      have hpa : pushAt σ (MemoryPoolAllocator.GetFreelistIndex s)
          ⟨b.addr, b.size, Origin.freed (MemoryPoolAllocator.GetFreelistIndex s)⟩ =
          some σ1 := by
        unfold pushAt
        rw [hl]
        exact h
      have hcls : b.size = 8 * (MemoryPoolAllocator.GetFreelistIndex s + 1) := by
        rw [hbs, MemoryPoolAllocator.RoundUp_small (by omega),
          MemoryPoolAllocator.GetFreelistIndex_small hs1 (by omega)]
        omega
      refine (pushAt_inv hσ ?_ ?_ ?_ hpa).1
      · exact hcls
      · exact hba
      · exact Or.inr rfl

/-- **C1** — Pool block invariant.  Under the stated assumption — every
`Deallocate(obj, s)` receives the size used to allocate `obj`, rendered as
the hypotheses `b.size = RoundUp s` and `b.addr % 8 = 0` on the deallocated
block — each of `Allocate`, `Deallocate`, `ReFill` and `ChunkAlloc`
preserves `Inv`, which states that every block on free list `i` is exactly
`8 * (i + 1)` bytes, 8-aligned, and originates from arena carving or from a
prior `Deallocate` into class `i` (the salvaged arena remainder pushed by
`ChunkAlloc` is covered: it lands on the list whose class size equals its
byte count exactly, or `Inv` would not survive the push).  In addition every
block `Allocate` hands out on the pool path is exactly
`RoundUp(requestedSize)` bytes, aligned, and of pool provenance, and every
region `ChunkAlloc` returns for carving is 8-aligned. -/
theorem pool_block_invariant :
    (∀ (handler : Bool) (s : Nat) (σ : PoolState) (o : Oracle) (r : PRes)
        (σ1 : PoolState) (o1 : Oracle),
      Inv σ → AlignedOracle o →
      MemoryPoolAllocator.Allocate handler s σ o = some (r, σ1, o1) →
      Inv σ1 ∧ (s ≤ 128 → ∀ b, r = PRes.ok b →
        b.size = MemoryPoolAllocator.RoundUp s ∧ b.addr % 8 = 0 ∧
        (b.origin = Origin.arena ∨
          b.origin = Origin.freed (MemoryPoolAllocator.GetFreelistIndex s)))) ∧
    (∀ (b : Block) (s : Nat) (σ σ1 : PoolState),
      Inv σ → b.size = MemoryPoolAllocator.RoundUp s → b.addr % 8 = 0 →
      MemoryPoolAllocator.Deallocate b s σ = some σ1 → Inv σ1) ∧
    (∀ (handler : Bool) (size : Nat) (σ : PoolState) (o : Oracle) (r : PRes)
        (σ1 : PoolState) (o1 : Oracle),
      Inv σ → AlignedOracle o → size % 8 = 0 → 8 ≤ size → size ≤ 128 →
      MemoryPoolAllocator.ReFill handler size σ o = some (r, σ1, o1) →
      Inv σ1 ∧ ∀ b, r = PRes.ok b →
        b.size = size ∧ b.addr % 8 = 0 ∧ b.origin = Origin.arena) ∧
    (∀ (handler : Bool) (fuel size n : Nat) (σ : PoolState) (o : Oracle)
        (r : CRes) (σ1 : PoolState) (o1 : Oracle),
      Inv σ → AlignedOracle o → size % 8 = 0 → 8 ≤ size → size ≤ 128 →
      MemoryPoolAllocator.ChunkAlloc handler fuel size n σ o = some (r, σ1, o1) →
      Inv σ1 ∧ ∀ c m, r = CRes.ok c m → c % 8 = 0) := by
  refine ⟨?_, ?_, ?_, ?_⟩
  · intro handler s σ o r σ1 o1 h1 h2 h3
    exact Allocate_inv h1 h2 h3
  · intro b s σ σ1 h1 h2 h3 h4
    exact Deallocate_inv h1 h2 h3 h4
  · intro handler size σ o r σ1 o1 h1 h2 h3 h4 h5 h6
    exact ReFill_inv h1 h2 h3 h4 h5 h6
  · intro handler fuel size n σ o r σ1 o1 h1 h2 h3 h4 h5 h6
    obtain ⟨g1, _, g3⟩ := ChunkAlloc_inv fuel h1 h2 h3 h4 h5 h6
    exact ⟨g1, g3⟩

/-- Witness for **C1**: a concrete `Allocate` step (carving the last 8-byte
block of a live arena) and a concrete `Deallocate` step, both checked
against the theorem at evaluated inputs. -/
theorem pool_block_invariant_check :
    (Inv ⟨List.replicate 16 [], 1032, 1032, 0⟩ ∧
      (8 ≤ 128 → ∀ b, PRes.ok ⟨1024, 8, Origin.arena⟩ = PRes.ok b →
        b.size = MemoryPoolAllocator.RoundUp 8 ∧ b.addr % 8 = 0 ∧
        (b.origin = Origin.arena ∨
          b.origin = Origin.freed (MemoryPoolAllocator.GetFreelistIndex 8)))) ∧
    Inv ⟨(List.replicate 16 ([] : List Block)).set 0 [⟨1024, 8, Origin.freed 0⟩],
      1032, 1032, 0⟩ :=
  ⟨pool_block_invariant.1 false 8 ⟨List.replicate 16 [], 1024, 1032, 0⟩ []
      (PRes.ok ⟨1024, 8, Origin.arena⟩) ⟨List.replicate 16 [], 1032, 1032, 0⟩ []
      (by decide) (by decide) (by decide),
    pool_block_invariant.2.1 ⟨1024, 8, Origin.arena⟩ 8
      ⟨List.replicate 16 [], 1032, 1032, 0⟩
      ⟨(List.replicate 16 ([] : List Block)).set 0 [⟨1024, 8, Origin.freed 0⟩],
        1032, 1032, 0⟩
      (by decide) (by decide) (by decide) (by decide)⟩

/-- **C8** — TypedWrapper zero-count sentinel: for every underlying
allocator (quantified, so the zero case provably never invokes it),
`AllocatorWrapper::Allocate(0)` returns the null pointer with the allocator
state untouched, and for `n > 0` it is exactly one underlying request of
`n * sizeof(T)` bytes whose result is returned. -/
theorem wrapper_zero_count_sentinel :
    ∀ (St : Type) (alloc : Nat → St → Nat × St) (sizeofT : Nat) (s : St),
      AllocatorWrapper.Allocate alloc sizeofT 0 s = (0, s) ∧
      ∀ n, 0 < n → AllocatorWrapper.Allocate alloc sizeofT n s =
        alloc (n * sizeofT % 2 ^ 64) s := by
  intro St alloc sizeofT s
  refine ⟨rfl, fun n hn => ?_⟩
  rw [AllocatorWrapper.Allocate, if_neg (by omega)]

/-- Witness for **C8** at a concrete instrumented allocator. -/
theorem wrapper_zero_count_sentinel_check :
    AllocatorWrapper.Allocate (fun k st => (k + st, st + 1)) 4 0 10 = (0, 10) ∧
    AllocatorWrapper.Allocate (fun k st => (k + st, st + 1)) 4 3 10 = (22, 11) := by
  obtain ⟨h1, h2⟩ := wrapper_zero_count_sentinel Nat (fun k st => (k + st, st + 1)) 4 10
  refine ⟨h1, ?_⟩
  rw [h2 3 (by norm_num)]
  decide

/-- **C10** — `AllocatorWrapper::Deallocate(ptr, 0)` is a no-op for every
underlying deallocator (quantified, so it is provably never invoked), every
pointer (null included) and every allocator state; consequently
`Deallocate(Allocate(0), 0)` leaves the state of `Allocate(0)` unchanged. -/
theorem wrapper_deallocate_zero_noop :
    ∀ (St : Type) (dealloc : Nat → Nat → St → St) (sizeofT ptr : Nat) (s : St),
      AllocatorWrapper.Deallocate dealloc sizeofT ptr 0 s = s ∧
      ∀ (alloc : Nat → St → Nat × St),
        AllocatorWrapper.Deallocate dealloc sizeofT
            (AllocatorWrapper.Allocate alloc sizeofT 0 s).1 0
            (AllocatorWrapper.Allocate alloc sizeofT 0 s).2 =
          (AllocatorWrapper.Allocate alloc sizeofT 0 s).2 := by
  intro St dealloc sizeofT ptr s
  exact ⟨rfl, fun alloc => rfl⟩

/-- Witness for **C10** at a concrete instrumented deallocator. -/
theorem wrapper_deallocate_zero_noop_check :
    AllocatorWrapper.Deallocate (fun p k st => p + k + st) 4 1024 0 10 = 10 ∧
    AllocatorWrapper.Deallocate (fun p k st => p + k + st) 4
        (AllocatorWrapper.Allocate (fun k st => (k + st, st + 1)) 4 0 10).1 0
        (AllocatorWrapper.Allocate (fun k st => (k + st, st + 1)) 4 0 10).2 =
      (AllocatorWrapper.Allocate (fun k st => (k + st, st + 1)) 4 0 10).2 := by
  obtain ⟨h1, h2⟩ := wrapper_deallocate_zero_noop Nat (fun p k st => p + k + st) 4 1024 10
  exact ⟨h1, h2 (fun k st => (k + st, st + 1))⟩

/-- **C9** — `Allocate(0)` takes the small-object path (`0 > 128` is false),
computes free-list index `(0 + 7) / 8 - 1`, which underflows in `size_t`
arithmetic to `2 ^ 64 - 1`, out of bounds for the 16-entry free-list array:
in the total embedding the operation returns `none` (undefined behaviour
reached from the public interface) for every 16-class state. -/
theorem allocate_zero_out_of_bounds :
    MemoryPoolAllocator.GetFreelistIndex 0 = 2 ^ 64 - 1 ∧
    ¬ (128 : Nat) < 0 ∧
    ∀ (handler : Bool) (σ : PoolState) (o : Oracle), σ.freelist.length = 16 →
      MemoryPoolAllocator.Allocate handler 0 σ o = none := by
  refine ⟨by decide, by decide, fun handler σ o hlen => ?_⟩
  unfold MemoryPoolAllocator.Allocate
  rw [if_neg (by decide)]
  rw [show MemoryPoolAllocator.GetFreelistIndex 0 = 2 ^ 64 - 1 from by decide]
  rw [List.getElem?_eq_none (by omega)]

/-- Witness for **C9**: the out-of-bounds branch at the initial state. -/
theorem allocate_zero_out_of_bounds_check :
    MemoryPoolAllocator.Allocate false 0 initState [] = none :=
  allocate_zero_out_of_bounds.2.2 false initState [] (by decide)

/-- **C4** — Large-size routing: for every `size > 128`,
`Allocate` delegates to `MallocAllocator.Allocate` — returning its pointer
(or null, or propagating its abort) with the entire pool state unchanged,
never touching a free list or the arena — and `Deallocate` delegates to
`free`, reading and writing no pool state at all. -/
theorem large_size_routing :
    ∀ (handler : Bool) (s : Nat) (σ : PoolState) (o : Oracle), 128 < s →
      (MemoryPoolAllocator.Allocate handler s σ o =
        match MallocAllocator.Allocate handler s o with
        | (.ok p, o1, _) => some (.ok ⟨p, s, .heap⟩, σ, o1)
        | (.null, o1, _) => some (.null, σ, o1)
        | (.aborted, o1, _) => some (.aborted, σ, o1)) ∧
      ∀ b, MemoryPoolAllocator.Deallocate b s σ = some σ := by
  intro handler s σ o hs
  constructor
  · unfold MemoryPoolAllocator.Allocate
    rw [if_pos hs]
  · intro b
    unfold MemoryPoolAllocator.Deallocate
    rw [if_pos hs]

/-- Witness for **C4**: `Allocate(200)` under a ceiling of 128 served by the
system heap at address 8, and `Deallocate(ptr, 200)` touching nothing. -/
theorem large_size_routing_check :
    MemoryPoolAllocator.Allocate false 200 initState [some 8] =
      some (PRes.ok ⟨8, 200, Origin.heap⟩, initState, []) ∧
    MemoryPoolAllocator.Deallocate ⟨8, 200, Origin.heap⟩ 200 initState =
      some initState := by
  obtain ⟨h1, h2⟩ := large_size_routing false 200 initState [some 8] (by norm_num)
  refine ⟨?_, h2 ⟨8, 200, Origin.heap⟩⟩
  rw [h1]
  decide

/-- **C6** — `Reallocate` class no-op: when `RoundUp(oldsize) =
RoundUp(newsize)` the call returns the block itself with every component of
the allocator state (free lists, arena bounds, allocation counter) and the
heap oracle unchanged; otherwise it is literally
`Deallocate(obj, oldsize)` followed by `Allocate(newsize)` — a composition
that copies no bytes, so contents are not preserved. -/
theorem reallocate_same_class :
    ∀ (handler : Bool) (b : Block) (oldsize newsize : Nat) (σ : PoolState)
      (o : Oracle),
      (MemoryPoolAllocator.RoundUp newsize = MemoryPoolAllocator.RoundUp oldsize →
        MemoryPoolAllocator.Reallocate handler b oldsize newsize σ o =
          some (PRes.ok b, σ, o)) ∧
      (MemoryPoolAllocator.RoundUp newsize ≠ MemoryPoolAllocator.RoundUp oldsize →
        MemoryPoolAllocator.Reallocate handler b oldsize newsize σ o =
          (MemoryPoolAllocator.Deallocate b oldsize σ).bind
            fun σ1 => MemoryPoolAllocator.Allocate handler newsize σ1 o) := by
  intro handler b oldsize newsize σ o
  constructor
  · intro he
    unfold MemoryPoolAllocator.Reallocate
    rw [if_pos he]
  · intro hne
    unfold MemoryPoolAllocator.Reallocate
    rw [if_neg hne]

/-- Witness for **C6**: `Reallocate(b, 5, 8)` is a no-op (both round to 8);
`Reallocate(b, 8, 16)` is deallocate-then-allocate. -/
theorem reallocate_same_class_check :
    MemoryPoolAllocator.Reallocate false ⟨1024, 8, Origin.arena⟩ 5 8 initState [] =
      some (PRes.ok ⟨1024, 8, Origin.arena⟩, initState, []) ∧
    MemoryPoolAllocator.Reallocate false ⟨1024, 8, Origin.arena⟩ 8 16 initState [] =
      (MemoryPoolAllocator.Deallocate ⟨1024, 8, Origin.arena⟩ 8 initState).bind
        fun σ1 => MemoryPoolAllocator.Allocate false 16 σ1 [] :=
  ⟨(reallocate_same_class false ⟨1024, 8, Origin.arena⟩ 5 8 initState []).1 (by decide),
    (reallocate_same_class false ⟨1024, 8, Origin.arena⟩ 8 16 initState []).2 (by decide)⟩

set_option maxRecDepth 2000 in
/-- **C5** — LIFO reuse: for sizes in `(0, 128]` mapping to one size class,
after `Allocate → p1`, `Allocate → p2`, `Deallocate(p1, s1)`,
`Deallocate(p2, s2)`, the next `Allocate` of any size of that class returns
`p2`, the most recently freed address. -/
theorem freelist_lifo_reuse :
    ∀ (handler : Bool) (s1 s2 s3 : Nat) (σ0 σa σb σ1 σ2 : PoolState)
      (o0 o1 o2 : Oracle) (b1 b2 : Block),
      0 < s1 → s1 ≤ 128 → 0 < s2 → s2 ≤ 128 → 0 < s3 → s3 ≤ 128 →
      MemoryPoolAllocator.GetFreelistIndex s2 =
        MemoryPoolAllocator.GetFreelistIndex s1 →
      MemoryPoolAllocator.GetFreelistIndex s3 =
        MemoryPoolAllocator.GetFreelistIndex s1 →
      MemoryPoolAllocator.Allocate handler s1 σ0 o0 = some (PRes.ok b1, σa, o1) →
      MemoryPoolAllocator.Allocate handler s2 σa o1 = some (PRes.ok b2, σb, o2) →
      MemoryPoolAllocator.Deallocate b1 s1 σb = some σ1 →
      MemoryPoolAllocator.Deallocate b2 s2 σ1 = some σ2 →
      (MemoryPoolAllocator.Allocate handler s3 σ2 o2).map (fun x => x.1) =
        some (PRes.ok ⟨b2.addr, b2.size,
          Origin.freed (MemoryPoolAllocator.GetFreelistIndex s2)⟩) := by
  intro handler s1 s2 s3 σ0 σa σb σ1 σ2 o0 o1 o2 b1 b2
  intro hs1p hs1le hs2p hs2le hs3p hs3le hi2 hi3 _ _ hd1 hd2
  unfold MemoryPoolAllocator.Deallocate at hd1 hd2
  rw [if_neg (by omega)] at hd1
  rw [if_neg (by omega)] at hd2
  rw [hi2] at hd2
  unfold pushAt at hd1 hd2
  rcases hl1 : σb.freelist[MemoryPoolAllocator.GetFreelistIndex s1]? with _ | l <;>
    rw [hl1] at hd1
  · cases hd1
  · have hlt : MemoryPoolAllocator.GetFreelistIndex s1 < σb.freelist.length := by
      by_contra hc
      rw [List.getElem?_eq_none (by omega)] at hl1
      cases hl1
    replace hd1 := Option.some.inj hd1
    subst hd1
    dsimp only at hd2
    rw [List.getElem?_set_self hlt] at hd2
    replace hd2 := Option.some.inj hd2
    subst hd2
    unfold MemoryPoolAllocator.Allocate
    rw [if_neg (by omega), hi3]
    dsimp only
    rw [List.getElem?_set_self (by simpa using hlt), hi2]
    rfl

/-- Witness for **C5**: a full concrete run from a two-block arena — the
two carved blocks at 1024 and 1032 are freed in that order, and the next
allocation returns 1032, the most recently freed address. -/
theorem freelist_lifo_reuse_check :
    (MemoryPoolAllocator.Allocate false 8
        ⟨(List.replicate 16 ([] : List Block)).set 0
            [⟨1032, 8, Origin.freed 0⟩, ⟨1024, 8, Origin.freed 0⟩],
          1040, 1040, 0⟩ []).map (fun x => x.1) =
      some (PRes.ok ⟨1032, 8, Origin.freed 0⟩) := by
  have h := freelist_lifo_reuse false 8 8 8
    ⟨List.replicate 16 [], 1024, 1040, 0⟩
    ⟨(List.replicate 16 ([] : List Block)).set 0 [⟨1032, 8, Origin.arena⟩],
      1040, 1040, 0⟩
    ⟨(List.replicate 16 ([] : List Block)).set 0 [], 1040, 1040, 0⟩
    ⟨(List.replicate 16 ([] : List Block)).set 0 [⟨1024, 8, Origin.freed 0⟩],
      1040, 1040, 0⟩
    ⟨(List.replicate 16 ([] : List Block)).set 0
        [⟨1032, 8, Origin.freed 0⟩, ⟨1024, 8, Origin.freed 0⟩],
      1040, 1040, 0⟩
    [] [] [] ⟨1024, 8, Origin.arena⟩ ⟨1032, 8, Origin.arena⟩
    (by decide) (by decide) (by decide) (by decide) (by decide) (by decide)
    (by decide) (by decide) (by decide) (by decide) (by decide) (by decide)
  simpa using h

/-- **C2**, counterexample — the claimed escalation order is not the
code's.  State: empty arena, no OOM handler, a failing `malloc`, and one
16-byte block on class 1.  The code's `ChunkAlloc(8, 20)` succeeds (it
calls plain `malloc`, sees it fail without any OOM protocol, requisitions
the class-1 block as mini-arena and carves it), whereas under the claim's
order — `RawAllocator` first — the OOM protocol would run with no handler
installed and abort. -/
theorem chunkalloc_escalation_counterexample :
    (MemoryPoolAllocator.ChunkAlloc false 3 8 20
        ⟨(List.replicate 16 ([] : List Block)).set 1 [⟨2048, 16, Origin.arena⟩],
          0, 0, 0⟩ [none]).map (fun x => x.1) = some (CRes.ok 2048 2) ∧
    (ChunkAllocClaimed false 3 8 20
        ⟨(List.replicate 16 ([] : List Block)).set 1 [⟨2048, 16, Origin.arena⟩],
          0, 0, 0⟩ [none]).map (fun x => x.1) = some CRes.aborted ∧
    ¬ (MemoryPoolAllocator.ChunkAlloc false 3 8 20
        ⟨(List.replicate 16 ([] : List Block)).set 1 [⟨2048, 16, Origin.arena⟩],
          0, 0, 0⟩ [none] =
      ChunkAllocClaimed false 3 8 20
        ⟨(List.replicate 16 ([] : List Block)).set 1 [⟨2048, 16, Origin.arena⟩],
          0, 0, 0⟩ [none]) := by
  refine ⟨by decide, by decide, by decide⟩

/-- **C2**, amended — the code's escalation order in `ChunkAlloc` when the
arena holds fewer bytes than one block (and than the full batch): compute
`bytesget = 2 × (size × count) + RoundUp(mallocoffset >> 4)`; salvage any
arena remainder of at least one alignment unit; request `bytesget` from
plain `malloc` (no OOM protocol) first; only if that fails scan the size
classes from the requested size upward and requisition one free block as a
substitute mini-arena, retrying the carve by recursion; and only if no
class has a spare block request `bytesget` from `MallocAllocator` (the
allocator that runs the OOM-handler protocol) — recursing on its pointer,
treating its null return as address 0, and propagating its abort. -/
theorem chunkalloc_escalation_order :
    ∀ (handler : Bool) (fuel size n : Nat) (σ : PoolState) (o : Oracle),
      σ.freespaceend - σ.freespacestart < size * n % 2 ^ 64 →
      σ.freespaceend - σ.freespacestart < size →
      MemoryPoolAllocator.ChunkAlloc handler (fuel + 1) size n σ o =
        (let bytesget := (size * n % 2 ^ 64 * 2 +
            MemoryPoolAllocator.RoundUp (σ.mallocoffset >>> 4)) % 2 ^ 64
        let salvaged :=
          if 8 ≤ σ.freespaceend - σ.freespacestart then
            pushAt σ (MemoryPoolAllocator.GetFreelistIndex
                (σ.freespaceend - σ.freespacestart))
              ⟨σ.freespacestart, σ.freespaceend - σ.freespacestart, .arena⟩
          else some σ
        salvaged.bind fun σ1 =>
          match malloc1 o with
          | (some a, o1) =>
            MemoryPoolAllocator.ChunkAlloc handler fuel size n
              { σ1 with freespacestart := a, freespaceend := a + bytesget,
                        mallocoffset := (σ1.mallocoffset + bytesget) % 2 ^ 64 } o1
          | (none, o1) =>
            match MemoryPoolAllocator.scanFrom σ1 size 17 with
            | some (i, b, σ2) =>
              MemoryPoolAllocator.ChunkAlloc handler fuel size n
                { σ2 with freespacestart := b.addr, freespaceend := b.addr + i } o1
            | none =>
              match MallocAllocator.Allocate handler bytesget o1 with
              | (.ok a, o2, _) =>
                MemoryPoolAllocator.ChunkAlloc handler fuel size n
                  { σ1 with freespacestart := a, freespaceend := a + bytesget,
                            mallocoffset := (σ1.mallocoffset + bytesget) % 2 ^ 64 } o2
              | (.null, o2, _) =>
                MemoryPoolAllocator.ChunkAlloc handler fuel size n
                  { σ1 with freespacestart := 0, freespaceend := bytesget,
                            mallocoffset := (σ1.mallocoffset + bytesget) % 2 ^ 64 } o2
              | (.aborted, o2, _) => some (.aborted, σ1, o2)) := by
  intro handler fuel size n σ o h1 h2
  simp only [MemoryPoolAllocator.ChunkAlloc]
  rw [if_neg (by omega), if_neg (by omega)]

/-- Witness for the amended **C2** at a concrete escalation (initial state,
one successful `malloc`): the equation instantiates and both sides evaluate
to the freshly carved 20-block arena. -/
theorem chunkalloc_escalation_order_check :
    MemoryPoolAllocator.ChunkAlloc false 3 8 20 initState [some 1024] =
      some (CRes.ok 1024 20, ⟨List.replicate 16 [], 1184, 1344, 320⟩, []) := by
  rw [chunkalloc_escalation_order false 2 8 20 initState [some 1024]
    (by decide) (by decide)]
  decide

end EasySTL
